import Mathlib

/-!
Verification of the backtest simulation engine of
`src/backtester.py` (class `BacktestEngine` and the `PandasStrategy`
variants).  Prices, cash and cost figures are modelled as exact
rationals (`ℚ`); the Python `float` arithmetic is taken at face value
on the rational numbers the program manipulates.  Timestamps are
modelled as integer day counts, matching the `.days` arithmetic the
code performs on them.  `pd.isna` / `NaN`-able quantities (the `Close`
column and the derived indicator columns) are modelled as `Option ℚ`
with `none` playing the role of `NaN`: every comparison against `NaN`
is false in the source, which the `Option` pattern matches reproduce.
-/

namespace Backtester

/-- Trade direction.  The source passes the strings `'BUY'` / `'SELL'`. -/
inductive Action where
  | BUY
  | SELL
deriving DecidableEq, Repr

/-- A trading signal as produced by `generate_signals`: the engine only
reads the `symbol`, `action` and `price` keys of the signal dict; the
strategy-specific diagnostic keys are never consumed and are omitted. -/
structure Signal where
  symbol : String
  action : Action
  price : ℚ
deriving DecidableEq, Repr

/-- One entry of `BacktestEngine.positions` (a dict
`{'quantity': …, 'avg_price': …, 'cost': …}`). -/
structure Position where
  quantity : ℤ
  avg_price : ℚ
  cost : ℚ
deriving DecidableEq, Repr

/-- One entry of `BacktestEngine.trade_history`.  `amount` is the
`'cost'` key for a BUY record and the `'revenue'` key for a SELL
record. -/
structure Trade where
  date : ℤ
  symbol : String
  action : Action
  quantity : ℤ
  price : ℚ
  amount : ℚ
  portfolio_value : ℚ
deriving DecidableEq, Repr

/-- One entry of `BacktestEngine.portfolio_values`
(`{'date': …, 'portfolio_value': …, 'price': …}`). -/
structure EquityPoint where
  date : ℤ
  portfolio_value : ℚ
  price : ℚ
deriving DecidableEq, Repr

/-- The mutable fields of `BacktestEngine` (the unused `daily_returns`
list, set once in `__init__` and never read or written again, is
omitted). -/
structure EngineState where
  initial_capital : ℚ
  current_capital : ℚ
  positions : List (String × Position)
  trade_history : List Trade
  portfolio_values : List EquityPoint
deriving DecidableEq, Repr

/-- One bar of the historical series together with the derived
indicator columns read by the strategies.  `close`, `volume` and the
indicator columns can be `NaN` in the source (modelled as `none`);
`open`, `high`, `low` are only ever used as plain numbers. -/
structure Bar where
  date : ℤ
  openPrice : ℚ
  high : ℚ
  low : ℚ
  close : Option ℚ
  volume : Option ℚ
  sma10 : Option ℚ
  sma30 : Option ℚ
  rsi : Option ℚ
  bbUpper : Option ℚ
  bbMiddle : Option ℚ
  bbLower : Option ℚ
deriving DecidableEq, Repr

/-- Dict lookup `self.positions[symbol]` / `symbol in self.positions`. -/
def posLookup : List (String × Position) → String → Option Position
  | [], _ => none
  | e :: es, s => if e.1 = s then some e.2 else posLookup es s

/-- Dict assignment `self.positions[symbol] = …` for a key that is
already present (the only situation in which the source reassigns an
existing entry). -/
def updateEntry : List (String × Position) → String → Position → List (String × Position)
  | [], _, _ => []
  | e :: es, s, p => if e.1 = s then (s, p) :: updateEntry es s p else e :: updateEntry es s p

/-- Dict deletion `del self.positions[symbol]`. -/
def removeEntry : List (String × Position) → String → List (String × Position)
  | [], _ => []
  | e :: es, s => if e.1 = s then removeEntry es s else e :: removeEntry es s

/-- The mark-to-market sum accumulated by the loop in
`get_portfolio_value` (lines 127-132): the priced symbol contributes
`quantity * current_price`, every other held symbol contributes
`quantity * avg_price`. -/
def markSum (positions : List (String × Position)) (current_price : ℚ) (symbol : String) : ℚ :=
  (positions.map (fun e =>
    if e.1 = symbol then (e.2.quantity : ℚ) * current_price
    else (e.2.quantity : ℚ) * e.2.avg_price)).sum

/-- `BacktestEngine.get_portfolio_value` (lines 123-134). -/
def get_portfolio_value (st : EngineState) (current_price : ℚ) (symbol : String) : ℚ :=
  st.current_capital + markSum st.positions current_price symbol

/-- `BacktestEngine.execute_trade` (lines 69-121). -/
def execute_trade (st : EngineState) (symbol : String) (action : Action)
    (quantity : ℤ) (price : ℚ) (date : ℤ) : EngineState :=
  match action with
  | Action.BUY =>
    let cost : ℚ := (quantity : ℚ) * price
    if cost ≤ st.current_capital then
      let newPositions : List (String × Position) :=
        match posLookup st.positions symbol with
        | some pos =>
          -- "Average down" (lines 75-82)
          let total_quantity : ℤ := pos.quantity + quantity
          let total_cost : ℚ := pos.cost + cost
          updateEntry st.positions symbol
            ⟨total_quantity, total_cost / (total_quantity : ℚ), total_cost⟩
        | none => st.positions ++ [(symbol, ⟨quantity, price, cost⟩)]
      let st' : EngineState :=
        { st with positions := newPositions, current_capital := st.current_capital - cost }
      { st' with trade_history := st'.trade_history ++
          [⟨date, symbol, Action.BUY, quantity, price, cost, get_portfolio_value st' price symbol⟩] }
    else st
  | Action.SELL =>
    -- `elif action == 'SELL' and symbol in self.positions` (line 101)
    match posLookup st.positions symbol with
    | none => st
    | some pos =>
      let quantity_to_sell : ℤ := min quantity pos.quantity
      let revenue : ℚ := (quantity_to_sell : ℚ) * price
      let newQuantity : ℤ := pos.quantity - quantity_to_sell
      let newCost : ℚ := pos.cost - (quantity_to_sell : ℚ) * pos.avg_price
      let newPositions : List (String × Position) :=
        if newQuantity ≤ 0 then removeEntry st.positions symbol
        else updateEntry st.positions symbol ⟨newQuantity, pos.avg_price, newCost⟩
      let st' : EngineState :=
        { st with positions := newPositions, current_capital := st.current_capital + revenue }
      { st' with trade_history := st'.trade_history ++
          [⟨date, symbol, Action.SELL, quantity_to_sell, price, revenue,
            get_portfolio_value st' price symbol⟩] }

/-- Python `int(x)` for a float: truncation toward zero. -/
def ratTrunc (x : ℚ) : ℤ := if 0 ≤ x then ⌊x⌋ else -⌊-x⌋

/-- `BacktestEngine.calculate_position_size` (lines 180-183):
`int(self.current_capital * 0.2 / price) if price > 0 else 0`. -/
def calculate_position_size (st : EngineState) (price : ℚ) : ℤ :=
  if 0 < price then ratTrunc (st.current_capital * (1 / 5) / price) else 0

/-- One signal dispatched by the loop body of `run_backtest`
(lines 159-168): a BUY for the backtested symbol is sized by
`calculate_position_size` and executed only when the size is positive;
a SELL for the backtested symbol is executed for the full held
quantity and only when the symbol is currently held. -/
def processSignal (symbol : String) (date : ℤ) (st : EngineState) (sig : Signal) : EngineState :=
  match sig.action with
  | Action.BUY =>
    if sig.symbol = symbol then
      let quantity := calculate_position_size st sig.price
      if 0 < quantity then execute_trade st symbol Action.BUY quantity sig.price date else st
    else st
  | Action.SELL =>
    if sig.symbol = symbol then
      match posLookup st.positions symbol with
      | some pos => execute_trade st symbol Action.SELL pos.quantity sig.price date
      | none => st
    else st

/-- Appending one equity point (lines 170-176), marking at the bar's
close. -/
def recordPoint (st : EngineState) (date : ℤ) (close : ℚ) (symbol : String) : EngineState :=
  { st with portfolio_values := st.portfolio_values ++
      [⟨date, get_portfolio_value st close symbol, close⟩] }

/-- The replay loop of `run_backtest` (lines 151-176), parametric in
the strategy: a strategy is a state type `σ` together with a
transition `gen` returning the emitted signals and the strategy's
updated internal state (the Python classes mutate themselves in
place).  A bar whose close is `NaN` is skipped entirely (line 152). -/
def runBars {σ : Type} (gen : σ → Bar → List Signal × σ) (symbol : String) :
    EngineState → σ → List Bar → EngineState × σ
  | st, s, [] => (st, s)
  | st, s, bar :: rest =>
    match bar.close with
    | none => runBars gen symbol st s rest
    | some c =>
      let gs := gen s bar
      let st' := gs.1.foldl (fun acc sig => processSignal symbol bar.date acc sig) st
      runBars gen symbol (recordPoint st' bar.date c symbol) gs.2 rest

/-- The engine state produced by the reset at the top of
`run_backtest` (lines 139-143). -/
def initState (cap : ℚ) : EngineState := ⟨cap, cap, [], [], []⟩

/-- `BacktestEngine.run_backtest` (lines 136-178) with the historical
fetch factored out: the already-materialised bar series is an input.
`prev` is whatever state the engine object carried before the call;
lines 139-143 overwrite every engine field, so it is discarded.  On an
empty series the `{'error': …}` dict of line 148 is returned; the
strategy's internal state is NOT reset anywhere and its final value is
returned alongside the engine state. -/
def run_backtest {σ : Type} (prev : EngineState) (gen : σ → Bar → List Signal × σ) (s0 : σ)
    (symbol : String) (bars : List Bar) (initial_capital : ℚ) :
    Except String (EngineState × σ) :=
  let st0 : EngineState := initState initial_capital
  if bars.isEmpty then Except.error ("No data available for " ++ symbol)
  else Except.ok (runBars gen symbol st0 s0 bars)

/-- The per-bar trace of the replay loop: for every processed
(non-skipped) bar, the engine state right after that bar's signals
were applied and its equity point recorded, together with that bar's
close and date.  This re-runs exactly the recursion of `runBars` and
is used to state which cash/position snapshot each recorded equity
point was computed from. -/
def runTrace {σ : Type} (gen : σ → Bar → List Signal × σ) (symbol : String) :
    EngineState → σ → List Bar → List (EngineState × ℚ × ℤ)
  | _, _, [] => []
  | st, s, bar :: rest =>
    match bar.close with
    | none => runTrace gen symbol st s rest
    | some c =>
      let gs := gen s bar
      let st' := gs.1.foldl (fun acc sig => processSignal symbol bar.date acc sig) st
      (recordPoint st' bar.date c symbol, c, bar.date) ::
        runTrace gen symbol (recordPoint st' bar.date c symbol) gs.2 rest

/-! ### Performance metrics (`calculate_annualized_return`,
`calculate_max_drawdown`) -/

/-- `min` of a pandas series (`.min()`), `none` (`NaN`) on an empty
series. -/
def listMin : List ℚ → Option ℚ
  | [] => none
  | x :: xs => some (xs.foldl min x)

/-- `portfolio_values.expanding().max()` continued with running
maximum `m`. -/
def runningPeaksFrom (m : ℚ) : List ℚ → List ℚ
  | [] => []
  | v :: vs => max m v :: runningPeaksFrom (max m v) vs

/-- `portfolio_values.expanding().max()` (line 241). -/
def runningPeaks : List ℚ → List ℚ
  | [] => []
  | v :: vs => v :: runningPeaksFrom v vs

/-- `BacktestEngine.calculate_max_drawdown` (lines 239-243):
`peak = expanding().max(); drawdown = (values - peak) / peak;
drawdown.min()`.  The empty-series result (`NaN`) is `none`. -/
def calculate_max_drawdown (values : List ℚ) : Option ℚ :=
  listMin (List.zipWith (fun v p => (v - p) / p) values (runningPeaks values))

/-- The drawdown series written with the running peak threaded as an
accumulator: provably equal to
`zipWith (fun v p => (v - p) / p) values (runningPeaks values)` and
convenient for induction. -/
def drawdownsFrom (m : ℚ) : List ℚ → List ℚ
  | [] => []
  | v :: vs => (v - max m v) / max m v :: drawdownsFrom (max m v) vs

/-- Day count between the first and the last equity point
(`(df_values.index[-1] - df_values.index[0]).days`, line 220). -/
def elapsedDays (curve : List EquityPoint) : ℤ :=
  (curve.getLast?.getD ⟨0, 0, 0⟩).date - (curve.head?.getD ⟨0, 0, 0⟩).date

/-- `BacktestEngine.calculate_annualized_return` (lines 215-226). -/
noncomputable def calculate_annualized_return (curve : List EquityPoint)
    (initial_capital : ℚ) : ℝ :=
  if curve.length < 2 then 0
  else if elapsedDays curve = 0 then 0
  else
    let total_return : ℚ :=
      (curve.getLast?.getD ⟨0, 0, 0⟩).portfolio_value / initial_capital - 1
    ((1 : ℝ) + (total_return : ℝ)) ^ ((365 : ℝ) / (elapsedDays curve : ℝ)) - 1

/-- The annualized-return formula exactly as the specification words
it: `(1 + total_return) ^ (365 / elapsed_days) - 1` with
`total_return = (final - initial) / initial`, and `0` whenever the
curve has fewer than two points or the elapsed day count is `0`. -/
noncomputable def annualizedReturnSpec (curve : List EquityPoint)
    (initial_capital : ℚ) : ℝ :=
  if curve.length < 2 ∨ elapsedDays curve = 0 then 0
  else
    let total_return : ℚ :=
      ((curve.getLast?.getD ⟨0, 0, 0⟩).portfolio_value - initial_capital) / initial_capital
    ((1 : ℝ) + (total_return : ℝ)) ^ ((365 : ℝ) / (elapsedDays curve : ℝ)) - 1

/-! ### Strategy variants (lines 299-568)

Each Python strategy object is modelled as a state type (its mutable
attributes) plus a transition function returning the emitted signals
and the successor state.  Unused attributes (`MomentumStrategy.last_signal`,
`MeanReversionStrategy.last_signal`, `RSIStrategy.last_signal`,
`BollingerBandsStrategy.last_signal`, `ScalpingStrategy.trade_count`,
and the window/std-dev parameters never read by `generate_signals`)
are omitted.  Where the source puts `data['Close']` into a signal's
`price` field without having tested it for `NaN`
(MovingAverageCrossover, RSI), the model writes `bar.close.getD 0`;
inside engine runs the close is always defined there because the loop
skips `NaN`-close bars before invoking the strategy. -/

/-- Mutable state of `ScalpingStrategy`: `last_price` (initially
`None`; `none` also stands for a stored `NaN`, which rejects every
comparison just like the `None`-guard path emits nothing). -/
structure ScalpingState where
  last_price : Option ℚ
deriving DecidableEq, Repr

/-- `ScalpingStrategy.generate_signals` (lines 349-376). -/
def scalping_generate_signals (symbol : String) (s : ScalpingState) (bar : Bar) :
    List Signal × ScalpingState :=
  match s.last_price with
  | none => ([], ⟨bar.close⟩)
  | some lp =>
    match bar.close with
    | none => ([], ⟨none⟩)
    | some c =>
      let price_change := (c - lp) / lp
      let sigs : List Signal :=
        if price_change > 5 / 1000 then [⟨symbol, Action.BUY, c⟩]
        else if price_change < -(5 / 1000) then [⟨symbol, Action.SELL, c⟩]
        else []
      (sigs, ⟨some c⟩)

/-- Mutable state of `MovingAverageCrossoverStrategy`: `last_signal`. -/
structure MACState where
  last_signal : Option Action
deriving DecidableEq, Repr

/-- `MovingAverageCrossoverStrategy.generate_signals` (lines 319-338). -/
def mac_generate_signals (symbol : String) (s : MACState) (bar : Bar) :
    List Signal × MACState :=
  match bar.sma10, bar.sma30 with
  | some s10, some s30 =>
    let current : Action := if s10 > s30 then Action.BUY else Action.SELL
    if s.last_signal ≠ some current then
      ([⟨symbol, current, bar.close.getD 0⟩], ⟨some current⟩)
    else ([], s)
  | _, _ => ([], s)

/-- `MomentumStrategy.generate_signals` (lines 386-415); stateless. -/
def momentum_generate_signals (symbol : String) (bar : Bar) : List Signal :=
  match bar.volume, bar.close with
  | some _, some c =>
    let price_momentum := (c - bar.openPrice) / bar.openPrice
    if price_momentum > 2 / 100 then [⟨symbol, Action.BUY, c⟩]
    else if price_momentum < -(2 / 100) then [⟨symbol, Action.SELL, c⟩]
    else []
  | _, _ => []

/-- `MeanReversionStrategy.generate_signals` (lines 425-449); stateless. -/
def mean_reversion_generate_signals (symbol : String) (bar : Bar) : List Signal :=
  match bar.sma30, bar.close with
  | some sma, some c =>
    let deviation := (c - sma) / sma
    if deviation < -(5 / 100) then [⟨symbol, Action.BUY, c⟩]
    else if deviation > 5 / 100 then [⟨symbol, Action.SELL, c⟩]
    else []
  | _, _ => []

/-- `BollingerBandsStrategy.generate_signals` (lines 461-493); stateless. -/
def bollinger_generate_signals (symbol : String) (bar : Bar) : List Signal :=
  match bar.bbUpper, bar.bbLower, bar.bbMiddle, bar.close with
  | some upper, some lower, some _, some c =>
    let bb_position := (c - lower) / (upper - lower)
    if bb_position ≤ 1 / 10 then [⟨symbol, Action.BUY, c⟩]
    else if bb_position ≥ 9 / 10 then [⟨symbol, Action.SELL, c⟩]
    else []
  | _, _, _, _ => []

/-- `RSIStrategy.generate_signals` (lines 505-527); stateless. -/
def rsi_generate_signals (symbol : String) (oversold overbought : ℚ) (bar : Bar) :
    List Signal :=
  match bar.rsi with
  | some r =>
    if r ≤ oversold then [⟨symbol, Action.BUY, bar.close.getD 0⟩]
    else if r ≥ overbought then [⟨symbol, Action.SELL, bar.close.getD 0⟩]
    else []
  | none => []

/-- Mutable state of `BreakoutStrategy`: the lazily created
`recent_high` / `recent_low` attributes (`hasattr` is modelled by
`Option`). -/
structure BreakoutState where
  recent_high : Option ℚ
  recent_low : Option ℚ
deriving DecidableEq, Repr

/-- `BreakoutStrategy.generate_signals` (lines 536-568). -/
def breakout_generate_signals (symbol : String) (s : BreakoutState) (bar : Bar) :
    List Signal × BreakoutState :=
  let sigs : List Signal :=
    match s.recent_high, s.recent_low with
    | some rh, some rl =>
      match bar.close with
      | none => []
      | some c =>
        if c > rh * (101 / 100) then [⟨symbol, Action.BUY, c⟩]
        else if c < rl * (99 / 100) then [⟨symbol, Action.SELL, c⟩]
        else []
    | _, _ => []
  let rh' : Option ℚ :=
    match s.recent_high with
    | none => some bar.high
    | some rh => if bar.high > rh then some bar.high else some rh
  let rl' : Option ℚ :=
    match s.recent_low with
    | none => some bar.low
    | some rl => if bar.low < rl then some bar.low else some rl
  (sigs, ⟨rh', rl'⟩)

/-! ### Concrete data used by witnesses and counterexamples -/

/-- The three-bar series of the specification's worked example:
closes `[100, 90, 99]` on consecutive days. -/
def cexBars : List Bar :=
  [⟨0, 100, 100, 100, some 100, some 1, none, none, none, none, none, none⟩,
   ⟨1, 90, 90, 90, some 90, some 1, none, none, none, none, none, none⟩,
   ⟨2, 99, 99, 99, some 99, some 1, none, none, none, none, none, none⟩]

/-- A concrete engine state holding 500 of cash and 3 shares of `"A"`
bought at 10. -/
def witnessState : EngineState :=
  ⟨1000, 500, [("A", ⟨3, 10, 30⟩)], [], []⟩

/-- A strategy that never emits a signal (used to instantiate
universally quantified theorems at a concrete strategy). -/
def constGen : Unit → Bar → List Signal × Unit := fun s _ => ([], s)

/-- The engine-state invariant maintained by the replay loop: cash is
strictly positive and the position book is either empty or a single
entry for the backtested symbol with at least one share. -/
def EngineInv (symbol : String) (st : EngineState) : Prop :=
  0 < st.current_capital ∧
    (st.positions = [] ∨ ∃ pos, st.positions = [(symbol, pos)] ∧ 1 ≤ pos.quantity)

/-! ### Ledger lemmas -/

theorem posLookup_removeEntry_self (ps : List (String × Position)) (s : String) :
    posLookup (removeEntry ps s) s = none := by
  induction ps with
  | nil => rfl
  | cons e es ih =>
    by_cases h : e.1 = s
    · simpa [removeEntry, h] using ih
    · simp [removeEntry, posLookup, h, ih]

theorem posLookup_removeEntry_ne (ps : List (String × Position)) (s s' : String)
    (h : s' ≠ s) : posLookup (removeEntry ps s) s' = posLookup ps s' := by
  induction ps with
  | nil => rfl
  | cons e es ih =>
    by_cases he : e.1 = s
    · rw [show removeEntry (e :: es) s = removeEntry es s by simp [removeEntry, he], ih]
      have hne : ¬e.1 = s' := by rw [he]; exact fun hh => h hh.symm
      rw [show posLookup (e :: es) s' = posLookup es s' by simp [posLookup, hne]]
    · rw [show removeEntry (e :: es) s = e :: removeEntry es s by simp [removeEntry, he]]
      by_cases he' : e.1 = s'
      · simp [posLookup, he']
      · simp [posLookup, he', ih]

theorem posLookup_updateEntry_self (ps : List (String × Position)) (s : String)
    (p : Position) :
    posLookup (updateEntry ps s p) s = (posLookup ps s).map (fun _ => p) := by
  induction ps with
  | nil => rfl
  | cons e es ih =>
    by_cases h : e.1 = s
    · simp [updateEntry, posLookup, h]
    · simp [updateEntry, posLookup, h, ih]

theorem posLookup_updateEntry_ne (ps : List (String × Position)) (s s' : String)
    (p : Position) (h : s' ≠ s) :
    posLookup (updateEntry ps s p) s' = posLookup ps s' := by
  induction ps with
  | nil => rfl
  | cons e es ih =>
    by_cases he : e.1 = s
    · have hs : ¬s = s' := fun hh => h hh.symm
      simp [updateEntry, posLookup, he, hs, ih]
    · simp [updateEntry, posLookup, he, ih]

theorem execute_trade_pv (st : EngineState) (sym : String) (a : Action) (q : ℤ)
    (p : ℚ) (d : ℤ) :
    (execute_trade st sym a q p d).portfolio_values = st.portfolio_values := by
  cases a <;> simp only [execute_trade] <;> split <;> rfl

theorem processSignal_pv (symbol : String) (d : ℤ) (st : EngineState) (sig : Signal) :
    (processSignal symbol d st sig).portfolio_values = st.portfolio_values := by
  obtain ⟨ss, a, sp⟩ := sig
  cases a <;> simp only [processSignal] <;> split <;>
    first
      | rfl
      | (split <;> first | rfl | apply execute_trade_pv)

theorem foldl_processSignal_pv (symbol : String) (d : ℤ) (sigs : List Signal)
    (st : EngineState) :
    (sigs.foldl (fun acc sig => processSignal symbol d acc sig) st).portfolio_values =
      st.portfolio_values := by
  induction sigs generalizing st with
  | nil => rfl
  | cons sig rest ih => simpa [List.foldl_cons, processSignal_pv] using ih (processSignal symbol d st sig)

/-- `int(current_capital * 0.2 / price)` times the price never exceeds
one fifth of the cash (exact arithmetic). -/
theorem ratTrunc_mul_le (c p : ℚ) (hc : 0 ≤ c) (hp : 0 < p) :
    ((ratTrunc (c * (1 / 5) / p) : ℤ) : ℚ) * p ≤ c * (1 / 5) := by
  have hx : (0 : ℚ) ≤ c * (1 / 5) / p := by positivity
  rw [ratTrunc, if_pos hx]
  calc ((⌊c * (1 / 5) / p⌋ : ℤ) : ℚ) * p
      ≤ (c * (1 / 5) / p) * p := mul_le_mul_of_nonneg_right (Int.floor_le _) hp.le
    _ = c * (1 / 5) := div_mul_cancel₀ _ (ne_of_gt hp)

/-! ### Claims -/

/-- C2: a SELL never drives any position's quantity below zero (the
sold quantity is clamped to the held quantity via `min`, positions on
other symbols are untouched, and a SELL on an unheld symbol is a
complete no-op recording no trade), and a BUY whose
`quantity * price` exceeds the current cash leaves the ledger
untouched and records no trade.  Quantifying over every engine state
covers every sequence of `execute_trade` calls from a fresh
portfolio. -/
theorem sell_clamped_buy_needs_cash (st : EngineState) (sym : String) (q : ℤ)
    (p : ℚ) (d : ℤ) :
    (∀ pos', posLookup (execute_trade st sym Action.SELL q p d).positions sym = some pos' →
        0 ≤ pos'.quantity)
    ∧ (∀ s', s' ≠ sym →
        posLookup (execute_trade st sym Action.SELL q p d).positions s' =
          posLookup st.positions s')
    ∧ (posLookup st.positions sym = none → execute_trade st sym Action.SELL q p d = st)
    ∧ (∀ pos, posLookup st.positions sym = some pos →
        ∃ t, (execute_trade st sym Action.SELL q p d).trade_history =
            st.trade_history ++ [t] ∧ t.quantity = min q pos.quantity)
    ∧ (st.current_capital < (q : ℚ) * p → execute_trade st sym Action.BUY q p d = st) := by
  have hbuy : st.current_capital < (q : ℚ) * p → execute_trade st sym Action.BUY q p d = st := by
    intro hq
    simp only [execute_trade]
    rw [if_neg (not_le.mpr hq)]
  cases hl : posLookup st.positions sym with
  | none =>
    have hse : execute_trade st sym Action.SELL q p d = st := by
      simp only [execute_trade, hl]
    refine ⟨?_, ?_, fun _ => hse, ?_, hbuy⟩
    · intro pos' h
      rw [hse, hl] at h
      exact absurd h (by simp)
    · intro s' _
      rw [hse]
    · intro pos h
      exact absurd h (by simp)
  | some pos =>
    refine ⟨?_, ?_, ?_, ?_, hbuy⟩
    · intro pos' h
      simp only [execute_trade, hl] at h
      by_cases hz : pos.quantity - min q pos.quantity ≤ 0
      · rw [if_pos hz, posLookup_removeEntry_self] at h
        exact absurd h (by simp)
      · rw [if_neg hz, posLookup_updateEntry_self, hl] at h
        simp only [Option.map_some'] at h
        obtain rfl := (Option.some.injEq _ _).mp h
        show (0 : ℤ) ≤ pos.quantity - min q pos.quantity
        omega
    · intro s' hne
      simp only [execute_trade, hl]
      by_cases hz : pos.quantity - min q pos.quantity ≤ 0
      · rw [if_pos hz]
        exact posLookup_removeEntry_ne _ _ _ hne
      · rw [if_neg hz]
        exact posLookup_updateEntry_ne _ _ _ _ hne
    · intro h
      exact absurd h (by simp)
    · intro pos0 h
      obtain rfl := (Option.some.injEq _ _).mp h
      simp only [execute_trade, hl]
      exact ⟨_, rfl, rfl⟩

/-- C2 witness: on a concrete ledger holding 3 shares of `"A"` and 500
cash, a SELL of 5 is clamped to 3, a SELL of an unheld symbol is a
no-op, and a BUY costing 1000 is refused. -/
theorem sell_clamped_buy_needs_cash_witness :
    (∃ t, (execute_trade witnessState "A" Action.SELL 5 2 0).trade_history =
        witnessState.trade_history ++ [t] ∧ t.quantity = min 5 3)
    ∧ execute_trade witnessState "B" Action.SELL 5 2 0 = witnessState
    ∧ execute_trade witnessState "A" Action.BUY 100 10 0 = witnessState := by
  refine ⟨?_, ?_, ?_⟩
  · exact (sell_clamped_buy_needs_cash witnessState "A" 5 2 0).2.2.2.1 ⟨3, 10, 30⟩
      (by with_unfolding_all rfl)
  · exact (sell_clamped_buy_needs_cash witnessState "B" 5 2 0).2.2.1
      (by with_unfolding_all rfl)
  · refine (sell_clamped_buy_needs_cash witnessState "A" 100 10 0).2.2.2.2 ?_
    show witnessState.current_capital < ((100 : ℤ) : ℚ) * 10
    norm_num [witnessState]

/-- C9: inside the replay loop, a SELL signal that reaches a held
position liquidates it entirely: the executed quantity is the full
held quantity and the position entry is removed immediately. -/
theorem sell_signal_liquidates (st : EngineState) (symbol : String) (p : ℚ) (d : ℤ)
    (pos : Position) (hl : posLookup st.positions symbol = some pos) :
    posLookup (processSignal symbol d st ⟨symbol, Action.SELL, p⟩).positions symbol = none
    ∧ ∃ t, (processSignal symbol d st ⟨symbol, Action.SELL, p⟩).trade_history =
        st.trade_history ++ [t] ∧ t.quantity = pos.quantity ∧ t.action = Action.SELL := by
  have hsig : processSignal symbol d st ⟨symbol, Action.SELL, p⟩ =
      execute_trade st symbol Action.SELL pos.quantity p d := by
    simp [processSignal, hl]
  rw [hsig]
  constructor
  · simp only [execute_trade, hl, min_self, sub_self]
    rw [if_pos le_rfl]
    exact posLookup_removeEntry_self _ _
  · simp only [execute_trade, hl, min_self, sub_self]
    rw [if_pos le_rfl]
    exact ⟨_, rfl, rfl, rfl⟩

/-- C9 witness: the concrete ledger holding 3 shares of `"A"` is fully
liquidated by one SELL signal. -/
theorem sell_signal_liquidates_witness :
    posLookup (processSignal "A" 0 witnessState ⟨"A", Action.SELL, 2⟩).positions "A" = none
    ∧ ∃ t, (processSignal "A" 0 witnessState ⟨"A", Action.SELL, 2⟩).trade_history =
        witnessState.trade_history ++ [t] ∧ t.quantity = (3 : ℤ) ∧ t.action = Action.SELL :=
  sell_signal_liquidates witnessState "A" 2 0 ⟨3, 10, 30⟩ (by with_unfolding_all rfl)

/-- C10: with exact arithmetic the sized BUY always fits in cash:
`floor(0.2 * cash / price) * price ≤ cash` whenever `cash ≥ 0` and
`price > 0`, so a BUY signal sized to a positive quantity always
passes the ledger's cash check (a trade is recorded) and cash never
goes negative. -/
theorem buy_sizing_fits_cash (st : EngineState) (sym : String) (p : ℚ) (d : ℤ)
    (hc : 0 ≤ st.current_capital) (hp : 0 < p) :
    ((calculate_position_size st p : ℤ) : ℚ) * p ≤ st.current_capital
    ∧ (0 < calculate_position_size st p →
        (∃ t, (execute_trade st sym Action.BUY (calculate_position_size st p) p d).trade_history =
            st.trade_history ++ [t])
        ∧ 0 ≤ (execute_trade st sym Action.BUY
            (calculate_position_size st p) p d).current_capital) := by
  have h15 : ((calculate_position_size st p : ℤ) : ℚ) * p ≤ st.current_capital * (1 / 5) := by
    rw [calculate_position_size, if_pos hp]
    exact ratTrunc_mul_le _ _ hc hp
  have hle : ((calculate_position_size st p : ℤ) : ℚ) * p ≤ st.current_capital := by
    linarith
  refine ⟨hle, fun _ => ⟨?_, ?_⟩⟩
  · simp only [execute_trade]
    rw [if_pos hle]
    exact ⟨_, rfl⟩
  · simp only [execute_trade]
    rw [if_pos hle]
    show (0 : ℚ) ≤ st.current_capital - _
    linarith

/-- C10 witness: with 1000 cash and price 99 the sized quantity is 2,
its cost 198 fits in cash, the BUY is recorded and cash stays
nonnegative. -/
theorem buy_sizing_fits_cash_witness :
    calculate_position_size (initState 1000) 99 = 2
    ∧ ((calculate_position_size (initState 1000) 99 : ℤ) : ℚ) * 99 ≤
        (initState 1000).current_capital
    ∧ (∃ t, (execute_trade (initState 1000) "AAPL" Action.BUY
          (calculate_position_size (initState 1000) 99) 99 0).trade_history =
            (initState 1000).trade_history ++ [t])
    ∧ 0 ≤ (execute_trade (initState 1000) "AAPL" Action.BUY
        (calculate_position_size (initState 1000) 99) 99 0).current_capital := by
  have hq : calculate_position_size (initState 1000) 99 = 2 := by
    with_unfolding_all rfl
  have h := buy_sizing_fits_cash (initState 1000) "AAPL" 99 0
    (by norm_num [initState]) (by norm_num)
  exact ⟨hq, h.1, (h.2 (by rw [hq]; norm_num)).1, (h.2 (by rw [hq]; norm_num)).2⟩

/-- C5: a run over an empty bar series returns the structured
`'No data available'` error; the freshly reset engine state holds no
equity points and no trades, and no performance report is produced
(the result carries no report payload). -/
theorem empty_series_is_error {σ : Type} (prev : EngineState)
    (gen : σ → Bar → List Signal × σ) (s0 : σ) (symbol : String) (cap : ℚ) :
    run_backtest prev gen s0 symbol [] cap =
        Except.error ("No data available for " ++ symbol)
    ∧ (initState cap).portfolio_values = [] ∧ (initState cap).trade_history = [] :=
  ⟨rfl, rfl, rfl⟩

set_option maxRecDepth 8000 in
/-- C4: the specification's worked example.  Closes `[100, 90, 99]`,
capital 1000, fresh Scalping strategy: bar 1 emits nothing, bar 2
emits a SELL that is a no-op (nothing held), bar 3 emits a BUY
executed for `floor(0.2*1000/99) = 2` shares at 99, leaving cash 802,
a single recorded trade, and an equity curve ending at
`802 + 2*99 = 1000`. -/
theorem scalping_worked_example :
    (scalping_generate_signals "AAPL" ⟨none⟩ cexBars[0]).1 = []
    ∧ (scalping_generate_signals "AAPL" ⟨some 100⟩ cexBars[1]).1 =
        [⟨"AAPL", Action.SELL, 90⟩]
    ∧ (scalping_generate_signals "AAPL" ⟨some 90⟩ cexBars[2]).1 =
        [⟨"AAPL", Action.BUY, 99⟩]
    ∧ run_backtest (initState 1000) (scalping_generate_signals "AAPL") ⟨none⟩ "AAPL"
        cexBars 1000 =
      Except.ok
        (⟨1000, 802, [("AAPL", ⟨2, 99, 198⟩)],
          [⟨2, "AAPL", Action.BUY, 2, 99, 198, 1000⟩],
          [⟨0, 1000, 100⟩, ⟨1, 1000, 90⟩, ⟨2, 1000, 99⟩]⟩, ⟨some 99⟩) := by
  refine ⟨?_, ?_, ?_, ?_⟩ <;> with_unfolding_all rfl

set_option maxRecDepth 8000 in
/-- C3 counterexample: `run_backtest` does not reset the strategy
object's internal state, so running the very same Scalping strategy
twice over the same bars and capital does NOT yield identical results.
The first run ends with `last_price = 99` carried inside the strategy;
rerunning from that carried state produces a different equity curve
(`[1000, 980, 980]` instead of `[1000, 1000, 1000]`) and three trades
instead of one. -/
theorem rerun_same_strategy_differs :
    run_backtest (initState 1000) (scalping_generate_signals "AAPL") ⟨none⟩ "AAPL"
        cexBars 1000 =
      Except.ok
        (⟨1000, 802, [("AAPL", ⟨2, 99, 198⟩)],
          [⟨2, "AAPL", Action.BUY, 2, 99, 198, 1000⟩],
          [⟨0, 1000, 100⟩, ⟨1, 1000, 90⟩, ⟨2, 1000, 99⟩]⟩, ⟨some 99⟩)
    ∧ (run_backtest (initState 1000) (scalping_generate_signals "AAPL") ⟨some 99⟩ "AAPL"
        cexBars 1000).toOption.map (fun r => r.1.portfolio_values) =
      some [⟨0, 1000, 100⟩, ⟨1, 980, 90⟩, ⟨2, 980, 99⟩]
    ∧ ([⟨0, (1000 : ℚ), 100⟩, ⟨1, 980, 90⟩, ⟨2, 980, 99⟩] : List EquityPoint) ≠
        [⟨0, 1000, 100⟩, ⟨1, 1000, 90⟩, ⟨2, 1000, 99⟩] := by
  refine ⟨by with_unfolding_all rfl, by with_unfolding_all rfl, ?_⟩
  with_unfolding_all decide

/-- C3 amended: the replay is deterministic and the engine itself
carries no state across runs (every engine field is reset on entry,
so the result is independent of any previous engine state); two runs
are identical whenever the strategy also starts from the same internal
state.  The original claim fails only because the strategy object's
own state is never reset. -/
theorem rerun_deterministic {σ : Type} (prev prev' : EngineState)
    (gen : σ → Bar → List Signal × σ) (s0 : σ) (symbol : String) (bars : List Bar)
    (cap : ℚ) :
    run_backtest prev gen s0 symbol bars cap = run_backtest prev' gen s0 symbol bars cap :=
  rfl

/-- C8: every strategy variant emits at most one signal per call, for
every internal state and every bar — in particular a BUY and a SELL
are never both emitted for the same bar (each variant tests its BUY
condition first and its SELL condition only in the `elif`). -/
theorem strategies_emit_at_most_one_signal :
    (∀ sym s bar, ((mac_generate_signals sym s bar).1).length ≤ 1)
    ∧ (∀ sym s bar, ((scalping_generate_signals sym s bar).1).length ≤ 1)
    ∧ (∀ sym bar, (momentum_generate_signals sym bar).length ≤ 1)
    ∧ (∀ sym bar, (mean_reversion_generate_signals sym bar).length ≤ 1)
    ∧ (∀ sym bar, (bollinger_generate_signals sym bar).length ≤ 1)
    ∧ (∀ sym lo hi bar, (rsi_generate_signals sym lo hi bar).length ≤ 1)
    ∧ (∀ sym s bar, ((breakout_generate_signals sym s bar).1).length ≤ 1) := by
  refine ⟨?_, ?_, ?_, ?_, ?_, ?_, ?_⟩
  · intro sym s bar
    unfold mac_generate_signals
    repeat' split
    all_goals try dsimp only
    all_goals try split_ifs
    all_goals simp
  · intro sym s bar
    unfold scalping_generate_signals
    repeat' split
    all_goals try dsimp only
    all_goals try split_ifs
    all_goals simp
  · intro sym bar
    unfold momentum_generate_signals
    repeat' split
    all_goals try dsimp only
    all_goals try split_ifs
    all_goals simp
  · intro sym bar
    unfold mean_reversion_generate_signals
    repeat' split
    all_goals try dsimp only
    all_goals try split_ifs
    all_goals simp
  · intro sym bar
    unfold bollinger_generate_signals
    repeat' split
    all_goals try dsimp only
    all_goals try split_ifs
    all_goals simp
  · intro sym lo hi bar
    unfold rsi_generate_signals
    repeat' split
    all_goals try dsimp only
    all_goals try split_ifs
    all_goals simp
  · intro sym s bar
    unfold breakout_generate_signals
    repeat' split
    all_goals try dsimp only
    all_goals try split_ifs
    all_goals simp

/-- Every equity point appended along the replay is the
`get_portfolio_value` of the engine state current at that moment, with
that bar's close as mark price: the equity curve equals the per-bar
trace mapped through `cash + markSum`. -/
theorem runBars_pv_trace {σ : Type} (gen : σ → Bar → List Signal × σ) (symbol : String)
    (bars : List Bar) :
    ∀ (st : EngineState) (s : σ),
    (runBars gen symbol st s bars).1.portfolio_values =
      st.portfolio_values ++
        (runTrace gen symbol st s bars).map
          (fun t =>
            ⟨t.2.2, t.1.current_capital + markSum t.1.positions t.2.1 symbol, t.2.1⟩) := by
  induction bars with
  | nil => intro st s; simp [runBars, runTrace]
  | cons bar rest ih =>
    intro st s
    cases hc : bar.close with
    | none =>
      simp only [runBars, runTrace, hc]
      exact ih st s
    | some c =>
      simp only [runBars, runTrace, hc]
      rw [ih]
      simp [recordPoint, foldl_processSignal_pv, get_portfolio_value]

/-- C1: for every run, the recorded equity curve decomposes pointwise
as current cash plus the mark-to-market sum (priced symbol at that
bar's close, every other held symbol at its average cost basis) of the
engine state at the moment of recording. -/
theorem equity_points_decompose {σ : Type} (gen : σ → Bar → List Signal × σ) (s0 : σ)
    (symbol : String) (cap : ℚ) (bars : List Bar) :
    (runBars gen symbol (initState cap) s0 bars).1.portfolio_values =
      (runTrace gen symbol (initState cap) s0 bars).map
        (fun t =>
          ⟨t.2.2, t.1.current_capital + markSum t.1.positions t.2.1 symbol, t.2.1⟩) := by
  simpa [initState] using runBars_pv_trace gen symbol bars (initState cap) s0

/-- C6: the code's annualized return agrees with the specification's
formula `(1 + total_return) ^ (365 / elapsed_days) - 1` (with
`total_return = (final - initial) / initial`), and is 0 whenever the
curve has fewer than two points or the elapsed day count is 0; the
initial capital must be nonzero (with a zero initial capital both
sides are division-by-zero artifacts in float arithmetic). -/
theorem annualized_return_matches_spec (curve : List EquityPoint) (initial : ℚ)
    (h : initial ≠ 0) :
    calculate_annualized_return curve initial = annualizedReturnSpec curve initial := by
  unfold calculate_annualized_return annualizedReturnSpec
  by_cases h2 : curve.length < 2
  · simp [h2]
  · by_cases hd : elapsedDays curve = 0
    · simp [h2, hd]
    · rw [if_neg h2, if_neg hd, if_neg (by simp [h2, hd])]
      have hq : (curve.getLast?.getD ⟨0, 0, 0⟩).portfolio_value / initial - 1 =
          ((curve.getLast?.getD ⟨0, 0, 0⟩).portfolio_value - initial) / initial := by
        rw [sub_div, div_self h]
      rw [hq]

/-- C6 witness: at the empty curve both definitions are 0. -/
theorem annualized_return_matches_spec_witness :
    (1 : ℚ) ≠ 0 ∧ calculate_annualized_return [] 1 = annualizedReturnSpec [] 1
      ∧ calculate_annualized_return [] 1 = 0 :=
  ⟨one_ne_zero, annualized_return_matches_spec [] 1 one_ne_zero,
    by simp [calculate_annualized_return]⟩

/-! ### Max-drawdown lemmas -/

theorem foldl_min_le_init (xs : List ℚ) (a : ℚ) : xs.foldl min a ≤ a := by
  induction xs generalizing a with
  | nil => exact le_refl a
  | cons x xs ih => exact le_trans (ih (min a x)) (min_le_left a x)

theorem foldl_min_le_mem (xs : List ℚ) (a x : ℚ) (hx : x ∈ xs) : xs.foldl min a ≤ x := by
  induction xs generalizing a with
  | nil => cases hx
  | cons y ys ih =>
    rcases List.mem_cons.mp hx with rfl | hx'
    · exact le_trans (foldl_min_le_init ys (min a x)) (min_le_right a x)
    · exact ih (min a y) hx'

theorem foldl_min_mem (xs : List ℚ) (a : ℚ) : xs.foldl min a = a ∨ xs.foldl min a ∈ xs := by
  induction xs generalizing a with
  | nil => exact Or.inl rfl
  | cons x xs ih =>
    rw [List.foldl_cons]
    rcases ih (min a x) with h | h
    · rcases min_cases a x with ⟨hm, _⟩ | ⟨hm, _⟩
      · left; rw [h, hm]
      · right; rw [h, hm]; exact List.mem_cons_self _ _
    · right; exact List.mem_cons_of_mem _ h

theorem listMin_spec (l : List ℚ) (m : ℚ) (h : listMin l = some m) :
    m ∈ l ∧ ∀ x ∈ l, m ≤ x := by
  cases l with
  | nil => cases h
  | cons x xs =>
    simp only [listMin, Option.some.injEq] at h
    subst h
    refine ⟨?_, ?_⟩
    · rcases foldl_min_mem xs x with h | h
      · rw [h]; exact List.mem_cons_self _ _
      · exact List.mem_cons_of_mem _ h
    · intro y hy
      rcases List.mem_cons.mp hy with rfl | hy'
      · exact foldl_min_le_init xs y
      · exact foldl_min_le_mem xs x y hy'

theorem zipWith_runningPeaksFrom (vs : List ℚ) (m : ℚ) :
    List.zipWith (fun v p => (v - p) / p) vs (runningPeaksFrom m vs) =
      drawdownsFrom m vs := by
  induction vs generalizing m with
  | nil => rfl
  | cons v vs ih => simp [runningPeaksFrom, drawdownsFrom, ih]

theorem calculate_max_drawdown_cons (v : ℚ) (vs : List ℚ) :
    calculate_max_drawdown (v :: vs) =
      listMin ((v - v) / v :: drawdownsFrom v vs) := by
  simp [calculate_max_drawdown, runningPeaks, zipWith_runningPeaksFrom]

theorem drawdownsFrom_nonpos (vs : List ℚ) (m : ℚ) (hm : 0 < m)
    (hpos : ∀ v ∈ vs, 0 < v) : ∀ d ∈ drawdownsFrom m vs, d ≤ 0 := by
  induction vs generalizing m with
  | nil => intro d hd; cases hd
  | cons v vs ih =>
    intro d hd
    rcases List.mem_cons.mp hd with rfl | hd'
    · exact div_nonpos_of_nonpos_of_nonneg (sub_nonpos.mpr (le_max_right m v))
        (le_of_lt (lt_of_lt_of_le hm (le_max_left m v)))
    · exact ih (max m v) (lt_of_lt_of_le hm (le_max_left m v))
        (fun x hx => hpos x (List.mem_cons_of_mem _ hx)) d hd'

theorem drawdownsFrom_zero_iff (vs : List ℚ) (m : ℚ) (hm : 0 < m)
    (hpos : ∀ v ∈ vs, 0 < v) :
    (∀ d ∈ drawdownsFrom m vs, d = 0) ↔ List.Chain (· ≤ ·) m vs := by
  induction vs generalizing m with
  | nil => simp [drawdownsFrom, List.Chain.nil]
  | cons v vs ih =>
    have hv : 0 < v := hpos v (List.mem_cons_self _ _)
    have hvs : ∀ x ∈ vs, 0 < x := fun x hx => hpos x (List.mem_cons_of_mem _ hx)
    have hmax : 0 < max m v := lt_of_lt_of_le hm (le_max_left m v)
    rw [List.chain_cons]
    simp only [drawdownsFrom, List.mem_cons, forall_eq_or_imp]
    constructor
    · rintro ⟨h0, hrest⟩
      have hsub : v - max m v = 0 := by
        rcases div_eq_zero_iff.mp h0 with h | h
        · exact h
        · exact absurd h (ne_of_gt hmax)
      have hmv : m ≤ v := by
        have hmx : max m v = v := by linarith
        rw [← hmx]; exact le_max_left m v
      have hmx : max m v = v := max_eq_right hmv
      rw [hmx] at hrest
      exact ⟨hmv, (ih v hv hvs).mp hrest⟩
    · rintro ⟨hmv, hchain⟩
      have hmx : max m v = v := max_eq_right hmv
      rw [hmx]
      exact ⟨by rw [sub_self, zero_div], (ih v hv hvs).mpr hchain⟩

/-- The curve-level statement: on a nonempty series of positive
values, the pandas `min((values - peak) / peak)` is `≤ 0` and is `0`
exactly when the values are non-decreasing. -/
theorem calculate_max_drawdown_spec (l : List ℚ) (hpos : ∀ x ∈ l, 0 < x) (d : ℚ)
    (hd : calculate_max_drawdown l = some d) :
    d ≤ 0 ∧ (d = 0 ↔ List.Chain' (· ≤ ·) l) := by
  cases l with
  | nil => cases hd
  | cons v vs =>
    have hv : 0 < v := hpos v (List.mem_cons_self _ _)
    have hvs : ∀ x ∈ vs, 0 < x := fun x hx => hpos x (List.mem_cons_of_mem _ hx)
    rw [calculate_max_drawdown_cons] at hd
    obtain ⟨hmem, hle⟩ := listMin_spec _ _ hd
    have hzero : (v - v) / v = 0 := by rw [sub_self, zero_div]
    have hd0 : d ≤ 0 := by
      have := hle _ (List.mem_cons_self _ _)
      rwa [hzero] at this
    refine ⟨hd0, ?_, ?_⟩
    · intro h0
      show List.Chain (· ≤ ·) v vs
      apply (drawdownsFrom_zero_iff vs v hv hvs).mp
      intro x hx
      have h1 : d ≤ x := hle x (List.mem_cons_of_mem _ hx)
      have h2 : x ≤ 0 := drawdownsFrom_nonpos vs v hv hvs x hx
      rw [h0] at h1
      linarith
    · intro hchain
      have hall : ∀ x ∈ (v - v) / v :: drawdownsFrom v vs, x = 0 := by
        intro x hx
        rcases List.mem_cons.mp hx with rfl | hx'
        · exact hzero
        · exact (drawdownsFrom_zero_iff vs v hv hvs).mpr hchain x hx'
      exact hall d hmem

/-! ### Engine invariant: positive cash, at most one (positive)
position, all held for the backtested symbol -/

theorem initState_inv (symbol : String) (cap : ℚ) (hcap : 0 < cap) :
    EngineInv symbol (initState cap) :=
  ⟨hcap, Or.inl rfl⟩

theorem get_portfolio_value_pos (st : EngineState) (c : ℚ) (symbol : String)
    (hinv : EngineInv symbol st) (hc : 0 < c) :
    0 < get_portfolio_value st c symbol := by
  obtain ⟨hcash, hnil | ⟨pos, hpos, hq1⟩⟩ := hinv
  · rw [get_portfolio_value, hnil]
    simpa [markSum] using hcash
  · rw [get_portfolio_value, hpos]
    have h1 : (1 : ℚ) ≤ (pos.quantity : ℚ) := by exact_mod_cast hq1
    have hqc : (0 : ℚ) < (pos.quantity : ℚ) * c := mul_pos (by linarith) hc
    simp only [markSum, List.map_cons, List.map_nil, List.sum_cons, List.sum_nil,
      if_pos, add_zero]
    linarith

theorem execute_trade_buy_capital (st : EngineState) (symbol : String) (q : ℤ)
    (p : ℚ) (d : ℤ) (hle : (q : ℚ) * p ≤ st.current_capital) :
    (execute_trade st symbol Action.BUY q p d).current_capital =
      st.current_capital - (q : ℚ) * p := by
  simp only [execute_trade]
  rw [if_pos hle]

theorem execute_trade_buy_positions (st : EngineState) (symbol : String) (q : ℤ)
    (p : ℚ) (d : ℤ) (hle : (q : ℚ) * p ≤ st.current_capital) :
    (execute_trade st symbol Action.BUY q p d).positions =
      (match posLookup st.positions symbol with
      | some pos =>
        updateEntry st.positions symbol
          ⟨pos.quantity + q, (pos.cost + (q : ℚ) * p) / ((pos.quantity + q : ℤ) : ℚ),
            pos.cost + (q : ℚ) * p⟩
      | none => st.positions ++ [(symbol, ⟨q, p, (q : ℚ) * p⟩)]) := by
  simp only [execute_trade]
  rw [if_pos hle]

theorem processSignal_inv (symbol : String) (d : ℤ) (st : EngineState) (sig : Signal)
    (hinv : EngineInv symbol st) (hp : 0 < sig.price) :
    EngineInv symbol (processSignal symbol d st sig) := by
  obtain ⟨hcash, hposs⟩ := hinv
  obtain ⟨ss, a, p⟩ := sig
  simp only at hp
  cases a with
  | BUY =>
    simp only [processSignal]
    by_cases hss : ss = symbol
    · rw [if_pos hss]
      by_cases hq : 0 < calculate_position_size st p
      · rw [if_pos hq]
        have h15 : ((calculate_position_size st p : ℤ) : ℚ) * p ≤
            st.current_capital * (1 / 5) := by
          rw [calculate_position_size, if_pos hp]
          exact ratTrunc_mul_le _ _ hcash.le hp
        have hle : ((calculate_position_size st p : ℤ) : ℚ) * p ≤ st.current_capital := by
          linarith
        have hcash' : 0 < st.current_capital -
            ((calculate_position_size st p : ℤ) : ℚ) * p := by linarith
        constructor
        · rw [execute_trade_buy_capital st symbol _ p d hle]
          exact hcash'
        rcases hposs with hnil | ⟨pos, hpos, hq1⟩
        · refine Or.inr ⟨⟨calculate_position_size st p, p,
            ((calculate_position_size st p : ℤ) : ℚ) * p⟩, ?_, hq⟩
          rw [execute_trade_buy_positions st symbol _ p d hle]
          rw [show posLookup st.positions symbol = none by simp [hnil, posLookup]]
          rw [hnil]
          rfl
        · have hl : posLookup st.positions symbol = some pos := by
            simp [hpos, posLookup]
          refine Or.inr ⟨⟨pos.quantity + calculate_position_size st p,
            (pos.cost + ((calculate_position_size st p : ℤ) : ℚ) * p) /
              ((pos.quantity + calculate_position_size st p : ℤ) : ℚ),
            pos.cost + ((calculate_position_size st p : ℤ) : ℚ) * p⟩, ?_, ?_⟩
          · rw [execute_trade_buy_positions st symbol _ p d hle, hl, hpos]
            simp [updateEntry]
          · show 1 ≤ pos.quantity + calculate_position_size st p
            omega
      · rw [if_neg hq]; exact ⟨hcash, hposs⟩
    · rw [if_neg hss]; exact ⟨hcash, hposs⟩
  | SELL =>
    simp only [processSignal]
    by_cases hss : ss = symbol
    · rw [if_pos hss]
      rcases hposs with hnil | ⟨pos, hpos, hq1⟩
      · rw [show posLookup st.positions symbol = none by simp [hnil, posLookup]]
        exact ⟨hcash, Or.inl hnil⟩
      · have hl : posLookup st.positions symbol = some pos := by
          simp [hpos, posLookup]
        rw [hl]
        simp only [execute_trade, hl, min_self, sub_self]
        rw [if_pos le_rfl]
        have hq0 : (0 : ℚ) < (pos.quantity : ℚ) := by exact_mod_cast
          (by omega : (0 : ℤ) < pos.quantity)
        refine ⟨?_, Or.inl ?_⟩
        · show 0 < st.current_capital + (pos.quantity : ℚ) * p
          nlinarith
        · show removeEntry st.positions symbol = []
          simp [hpos, removeEntry]
    · rw [if_neg hss]; exact ⟨hcash, hposs⟩

theorem foldl_processSignal_inv (symbol : String) (d : ℤ) (sigs : List Signal)
    (st : EngineState) (hinv : EngineInv symbol st)
    (hsig : ∀ sig ∈ sigs, 0 < sig.price) :
    EngineInv symbol
      (sigs.foldl (fun acc sig => processSignal symbol d acc sig) st) := by
  induction sigs generalizing st with
  | nil => exact hinv
  | cons sig rest ih =>
    rw [List.foldl_cons]
    exact ih (processSignal symbol d st sig)
      (processSignal_inv symbol d st sig hinv (hsig sig (List.mem_cons_self _ _)))
      (fun s hs => hsig s (List.mem_cons_of_mem _ hs))

theorem runBars_values_pos {σ : Type} (gen : σ → Bar → List Signal × σ)
    (symbol : String) (bars : List Bar) :
    ∀ (st : EngineState) (s : σ),
      EngineInv symbol st →
      (∀ pt ∈ st.portfolio_values, 0 < pt.portfolio_value) →
      (∀ bar ∈ bars, ∀ c, bar.close = some c → 0 < c) →
      (∀ s' bar sig c, bar.close = some c → 0 < c → sig ∈ (gen s' bar).1 → 0 < sig.price) →
      ∀ pt ∈ (runBars gen symbol st s bars).1.portfolio_values,
        0 < pt.portfolio_value := by
  induction bars with
  | nil => intro st s _ hacc _ _ pt hpt; exact hacc pt hpt
  | cons bar rest ih =>
    intro st s hinv hacc hbars hgen
    cases hc : bar.close with
    | none =>
      simp only [runBars, hc]
      exact ih st s hinv hacc (fun b hb => hbars b (List.mem_cons_of_mem _ hb)) hgen
    | some c =>
      have hcpos : 0 < c := hbars bar (List.mem_cons_self _ _) c hc
      simp only [runBars, hc]
      have hinv' : EngineInv symbol
          ((gen s bar).1.foldl (fun acc sig => processSignal symbol bar.date acc sig) st) :=
        foldl_processSignal_inv symbol bar.date _ st hinv
          (fun sig hsig => hgen s bar sig c hc hcpos hsig)
      have hval : 0 < get_portfolio_value
          ((gen s bar).1.foldl (fun acc sig => processSignal symbol bar.date acc sig) st)
          c symbol :=
        get_portfolio_value_pos _ c symbol hinv' hcpos
      apply ih
      · exact hinv'
      · intro pt hpt
        rcases List.mem_append.mp hpt with h | h
        · rw [foldl_processSignal_pv] at h
          exact hacc pt h
        · rcases List.mem_singleton.mp h with rfl
          exact hval
      · exact fun b hb => hbars b (List.mem_cons_of_mem _ hb)
      · exact hgen

/-- C7: for every run of the engine (any strategy, any bar series with
positive closes, any positive initial capital — the situations in
which an equity curve is recorded), the max drawdown computed from the
recorded equity curve is `≤ 0`, and it is `0` exactly when the curve
is monotonically non-decreasing. -/
theorem max_drawdown_nonpos_zero_iff_monotone {σ : Type}
    (gen : σ → Bar → List Signal × σ) (s0 : σ) (symbol : String) (cap : ℚ)
    (bars : List Bar) (hcap : 0 < cap)
    (hbars : ∀ bar ∈ bars, ∀ c, bar.close = some c → 0 < c)
    (hgen : ∀ s bar sig c, bar.close = some c → 0 < c → sig ∈ (gen s bar).1 →
      0 < sig.price)
    (d : ℚ)
    (hd : calculate_max_drawdown
        (((runBars gen symbol (initState cap) s0 bars).1.portfolio_values).map
          (fun pt => pt.portfolio_value)) = some d) :
    d ≤ 0 ∧ (d = 0 ↔ List.Chain' (· ≤ ·)
        (((runBars gen symbol (initState cap) s0 bars).1.portfolio_values).map
          (fun pt => pt.portfolio_value))) := by
  apply calculate_max_drawdown_spec _ _ d hd
  intro x hx
  rcases List.mem_map.mp hx with ⟨pt, hpt, rfl⟩
  refine runBars_values_pos gen symbol bars (initState cap) s0
    (initState_inv symbol cap hcap) ?_ hbars hgen pt hpt
  intro pt' hpt'
  simp [initState] at hpt'

/-- C7 witness: running the never-trading strategy on the three
positive-close bars with capital 1000 yields the constant curve
`[1000, 1000, 1000]`, whose max drawdown is 0, and the curve is
non-decreasing. -/
theorem max_drawdown_nonpos_zero_iff_monotone_witness :
    calculate_max_drawdown
        (((runBars constGen "A" (initState 1000) () cexBars).1.portfolio_values).map
          (fun pt => pt.portfolio_value)) = some 0
    ∧ (0 : ℚ) ≤ 0
    ∧ ((0 : ℚ) = 0 ↔ List.Chain' (· ≤ ·)
        (((runBars constGen "A" (initState 1000) () cexBars).1.portfolio_values).map
          (fun pt => pt.portfolio_value))) := by
  have hd : calculate_max_drawdown
      (((runBars constGen "A" (initState 1000) () cexBars).1.portfolio_values).map
        (fun pt => pt.portfolio_value)) = some 0 := by
    with_unfolding_all rfl
  have hbars : ∀ bar ∈ cexBars, ∀ c, bar.close = some c → 0 < c := by
    intro bar hbar c hc
    simp only [cexBars, List.mem_cons, List.not_mem_nil, or_false] at hbar
    rcases hbar with rfl | rfl | rfl <;> (injection hc with h; subst h; norm_num)
  have hgen : ∀ (s : Unit) (bar : Bar) (sig : Signal) (c : ℚ), bar.close = some c →
      0 < c → sig ∈ (constGen s bar).1 → 0 < sig.price := by
    intro s bar sig c _ _ hmem
    simp [constGen] at hmem
  have h := max_drawdown_nonpos_zero_iff_monotone constGen () "A" 1000 cexBars
    (by norm_num) hbars hgen 0 hd
  exact ⟨hd, h.1, h.2⟩

end Backtester
